import Mathlib

/-!
Verification development for the numeric utility module of this
repository (file `utils.py`): min-max normalization and its inverse,
categorical rounding, masked RMSE scoring, seeded random samplers and
the missingness injector.

Modelling conventions.

* A dataset cell is `Option ℚ`: `none` is the IEEE not-a-number
  sentinel, `some x` a finite value.  Rationals stand in for IEEE
  doubles; the `1e-6` epsilon is the exact rational `1/1000000`.
* A matrix is represented column-major (a list of columns), because
  every routine in the source works column-wise through `data[:, i]`.
* The process-wide numpy random generator is made explicit: an
  abstract library `RandLib` whose draws are deterministic functions
  of the generator state, and the state is threaded through every
  sampler call.  `np.random.seed` becomes `RandLib.seedState`.
-/

/-- A floating-point cell: `none` models not-a-number. -/
abbrev F := Option ℚ

/-- A column of a dataset (one feature). -/
abbrev Col := List F

/-- A dataset, column-major: `data.length` is the number of features
`dim`, each member is one column of length `n_rows`. -/
abbrev Mat := List Col

/-- Not-a-number-propagating subtraction. -/
def fsub : F → F → F
  | some a, some b => some (a - b)
  | _, _ => none

/-- Not-a-number-propagating addition. -/
def fadd : F → F → F
  | some a, some b => some (a + b)
  | _, _ => none

/-- Not-a-number-propagating multiplication. -/
def fmul : F → F → F
  | some a, some b => some (a * b)
  | _, _ => none

/-- Not-a-number-propagating division.  Division by zero (which floats
turn into an infinity or not-a-number) is modelled as `none`; no claim
in this development divides by zero with a finite numerator. -/
def fdiv : F → F → F
  | some a, some b => if b = 0 then none else some (a / b)
  | _, _ => none

/-- The additive epsilon `1e-6` used by the source in every division. -/
def eps : ℚ := 1 / 1000000

/-- The epsilon as a float cell. -/
def epsF : F := some eps

/-- The finite (non-missing) entries of a column, in order: the numpy
idiom `column[~np.isnan(column)]`. -/
def observed (col : Col) : List ℚ := col.filterMap id

/-- Left fold of `min` with starting value, used to model `np.nanmin`. -/
def qmin (a : ℚ) (l : List ℚ) : ℚ := l.foldl min a

/-- Left fold of `max` with starting value, used to model `np.nanmax`. -/
def qmax (a : ℚ) (l : List ℚ) : ℚ := l.foldl max a

/-- `np.nanmin` over a column: the least finite entry, ignoring
not-a-number entries; a column with no finite entry yields
not-a-number (numpy emits a warning for an all-missing slice and
raises on a zero-size one; the claims below are stated for columns
with at least one row). -/
def nanmin (col : Col) : F :=
  match observed col with
  | [] => none
  | x :: xs => some (qmin x xs)

/-- `np.nanmax` over a column, dual to `nanmin`. -/
def nanmax (col : Col) : F :=
  match observed col with
  | [] => none
  | x :: xs => some (qmax x xs)

/-- The fitted per-feature extrema returned by `normalization` and
consumed by apply-mode `normalization` and by `renormalization`. -/
structure NormParams where
  min_val : List F
  max_val : List F
deriving DecidableEq

/-- Fit-mode body of `normalization` for one column, following the
source statement by statement: record `nanmin`, subtract it, record
the `nanmax` of the shifted column, divide by that `nanmax` plus
epsilon.  Returns the transformed column together with the recorded
`min_val` and `max_val` entries. -/
def fitColumn (col : Col) : Col × F × F :=
  let mn := nanmin col
  let shifted := col.map (fun v => fsub v mn)
  let mx := nanmax shifted
  (shifted.map (fun v => fdiv v (fadd mx epsF)), mn, mx)

/-- Fit mode of `normalization` (the `parameters is None` branch). -/
def normalizationFit (data : Mat) : Mat × NormParams :=
  (data.map (fun c => (fitColumn c).1),
   ⟨data.map (fun c => (fitColumn c).2.1), data.map (fun c => (fitColumn c).2.2)⟩)

/-- Numpy broadcasting of a binary operation between a column (a 1-D
slice of length `n_rows`) and a parameter vector, as in the apply-mode
statements `norm_data[:,i] - min_val` and `norm_data[:,i] / (max_val + 1e-6)`:
a length-1 vector broadcasts as a scalar; equal lengths act
elementwise; any other combination raises (the assignment back into
the column slice also forbids a longer result), modelled as `none`. -/
def bcast (op : F → F → F) (col : Col) (vec : List F) : Option Col :=
  if vec.length = 1 then some (col.map (fun v => op v (vec.getD 0 none)))
  else if col.length = vec.length then some (List.zipWith op col vec)
  else none

/-- Apply mode of `normalization` (the `parameters` branch).  The
source subtracts the whole `min_val` vector from each column and then
divides by the whole `max_val + 1e-6` vector (there is no `[i]`
indexing in this branch), so each column is combined with the full
parameter vectors under numpy broadcasting; `none` models the raised
broadcast error.  On success the input parameters are passed through. -/
def normalizationApply (data : Mat) (p : NormParams) : Option (Mat × NormParams) :=
  (data.mapM (fun col =>
      (bcast fsub col p.min_val).bind (fun c1 =>
        bcast fdiv c1 (p.max_val.map (fun m => fadd m epsF))))).map
    (fun cols => (cols, p))

/-- `normalization(data, parameters=None)`: fit mode when no
parameters are supplied, apply mode otherwise. -/
def normalization (data : Mat) (parameters : Option NormParams) : Option (Mat × NormParams) :=
  match parameters with
  | none => some (normalizationFit data)
  | some p => normalizationApply data p

/-- `renormalization`: per column `i`, multiply by `max_val[i] + 1e-6`
and add `min_val[i]`.  This models the `try` branch of the source,
taken whenever the parameters are per-column vectors (as produced by
fit-mode `normalization`, the only shape used by the claims here); the
`except` fallback handles scalar parameters.  Columns are paired with
parameter entries positionally. -/
def renormalization (norm_data : Mat) (p : NormParams) : Mat :=
  List.zipWith
    (fun col pr => col.map (fun v => fadd (fmul v (fadd pr.2 epsF)) pr.1))
    norm_data (p.min_val.zip p.max_val)

/-- `np.round`: round half to even (the IEEE default used by numpy). -/
def npRound (x : ℚ) : ℚ :=
  let f : ℤ := Int.floor x
  if x - f < 1 / 2 then (f : ℚ)
  else if 1 / 2 < x - f then ((f + 1 : ℤ) : ℚ)
  else if f % 2 = 0 then (f : ℚ) else ((f + 1 : ℤ) : ℚ)

/-- `rounding(imputed_data, data_x)`: for each column, count the
distinct finite values of the original data (`np.unique` after masking
not-a-number entries); when fewer than 20, round the whole imputed
column entrywise, else leave it.  Columns are paired positionally (the
claims pair same-width inputs). -/
def rounding (imputed_data data_x : Mat) : Mat :=
  List.zipWith
    (fun colImp colX =>
      if ((observed colX).dedup).length < 20
      then colImp.map (Option.map npRound)
      else colImp)
    imputed_data data_x

/-- `np.sum` over a whole matrix; a not-a-number cell poisons the sum. -/
def matSum (m : Mat) : F := m.foldl (fun acc col => col.foldl fadd acc) (some 0)

/-- Cell-wise product of a numeric mask-complement matrix with a data
matrix, as in `(1-data_m) * ori_data`. -/
def maskMul (w : List (List ℚ)) (d : Mat) : Mat :=
  List.zipWith (fun wc oc => List.zipWith (fun wv ov => fmul (some wv) ov) wc oc) w d

/-- The square of `rmse_loss(ori_data, imputed_data, data_m)` (the
source applies `np.sqrt` as its very last step; the radicand is kept
so that the development stays inside ℚ — the root is zero or nonzero
exactly when the radicand is).  Fit-normalizes `ori_data`, then
apply-normalizes `imputed_data` with the fitted parameters (outer
`none` models the broadcast error raised there), then computes
`sum(((1-data_m)*ori - (1-data_m)*imputed)^2) / sum(1-data_m)`;
a zero denominator (floats: an infinity or not-a-number) is modelled
as the not-a-number cell. -/
def rmse_loss_sq (ori_data imputed_data : Mat) (data_m : List (List ℚ)) : Option F :=
  let fitres := normalizationFit ori_data
  (normalizationApply imputed_data fitres.2).map (fun impres =>
    let w : List (List ℚ) := data_m.map (List.map (fun m => 1 - m))
    let diff := List.zipWith (List.zipWith fsub) (maskMul w fitres.1) (maskMul w impres.1)
    let nom := matSum (diff.map (List.map (fun v => fmul v v)))
    let den : ℚ := w.foldl (fun a c => c.foldl (fun x y => x + y) a) 0
    if den = 0 then none else fdiv nom (some den))

/-- The numpy global generator, abstracted: `seedState` is the state
installed by `np.random.seed`, `uniform` and `permutation` consume a
state and return the draw with the successor state.  `uniform s low
high rows cols` returns `cols` columns of `rows` values (column-major,
matching `Mat`); `permutation s n` returns a shuffle of `[0, n)`. -/
structure RandLib where
  seedState : ℕ → ℕ
  uniform : ℕ → ℚ → ℚ → ℕ → ℕ → List (List ℚ) × ℕ
  permutation : ℕ → ℕ → List ℕ × ℕ

/-- `binary_sampler(p, rows, cols)`: reseed to 7, draw uniform values
in `[0,1)`, threshold at `p` into an integer 0/1 matrix.  The incoming
generator state `s` is the explicit form of the process-wide state the
call starts from. -/
def binary_sampler (lib : RandLib) (p : ℚ) (rows cols : ℕ) (s : ℕ) :
    List (List ℕ) × ℕ :=
  let _ := s
  let s1 := lib.seedState 7
  let u := lib.uniform s1 0 1 rows cols
  (u.1.map (List.map (fun v => if v < p then 1 else 0)), u.2)

/-- `uniform_sampler(low, high, rows, cols)`: reseed to 7, draw a
uniform matrix over `[low, high)`. -/
def uniform_sampler (lib : RandLib) (low high : ℚ) (rows cols : ℕ) (s : ℕ) :
    List (List ℚ) × ℕ :=
  let _ := s
  let s1 := lib.seedState 7
  lib.uniform s1 low high rows cols

/-- `sample_batch_index(total, batch_size)`: reseed to 7, draw a
permutation of `[0, total)`, keep the first `batch_size` entries.
`List.take` models the numpy slice `total_idx[:batch_size]`, which
silently truncates when `batch_size` exceeds the length. -/
def sample_batch_index (lib : RandLib) (total batch_size : ℕ) (s : ℕ) :
    List ℕ × ℕ :=
  let _ := s
  let t := lib.permutation (lib.seedState 7) total
  (t.1.take batch_size, t.2)

/-- `get_data(X, miss_rate)`: draw a keep-mask with probability
`1 - miss_rate`, copy `X`, overwrite the cells where the mask is 0
with the missing-value sentinel (the literal `".|."` of the source,
modelled as `none` in a sentinel-capable cell), and return the
untouched `X` together with the corrupted copy.  `X` is column-major:
`X.length` columns of `(X.headD []).length` rows. -/
def get_data (lib : RandLib) (X : List (List ℚ)) (miss_rate : ℚ) (s : ℕ) :
    (List (List ℚ) × List (List F)) × ℕ :=
  let no := (X.headD []).length
  let dim := X.length
  let bm := binary_sampler lib (1 - miss_rate) no dim s
  let miss := List.zipWith
    (fun colX colM => List.zipWith
      (fun x m => if m = 0 then (none : F) else some x) colX colM) X bm.1
  ((X, miss), bm.2)

/-- A concrete instance of the abstract numpy generator, used to
evaluate the sampler claims on explicit inputs: uniform draws
alternate between `low` and the midpoint of `[low, high)`, and the
permutation is the identity shuffle. -/
def testLib : RandLib where
  seedState := fun n => n
  uniform := fun _ low high rows cols =>
    ((List.range cols).map (fun j =>
      (List.range rows).map (fun i =>
        low + (high - low) * (((i + j) % 2 : ℕ) : ℚ) / 2)), 0)
  permutation := fun _ n => (List.range n, 0)

/-! Helper lemmas about the embedding. -/

theorem qmin_le_self (a : ℚ) (l : List ℚ) : qmin a l ≤ a := by
  induction l generalizing a with
  | nil => simp [qmin]
  | cons b t ih =>
    exact le_trans (ih (min a b)) (min_le_left a b)

theorem qmin_le_of_mem (a x : ℚ) (l : List ℚ) (hx : x ∈ l) : qmin a l ≤ x := by
  induction l generalizing a with
  | nil => cases hx
  | cons b t ih =>
    rcases List.mem_cons.mp hx with rfl | hx2
    · exact le_trans (qmin_le_self (min a x) t) (min_le_right a x)
    · exact ih (min a b) hx2

theorem le_qmax_self (a : ℚ) (l : List ℚ) : a ≤ qmax a l := by
  induction l generalizing a with
  | nil => simp [qmax]
  | cons b t ih =>
    exact le_trans (le_max_left a b) (ih (max a b))

theorem le_qmax_of_mem (a x : ℚ) (l : List ℚ) (hx : x ∈ l) : x ≤ qmax a l := by
  induction l generalizing a with
  | nil => cases hx
  | cons b t ih =>
    rcases List.mem_cons.mp hx with rfl | hx2
    · exact le_trans (le_max_right a x) (le_qmax_self (max a x) t)
    · exact ih (max a b) hx2

theorem qmax_map_sub (a m : ℚ) (l : List ℚ) :
    qmax (a - m) (l.map (fun x => x - m)) = qmax a l - m := by
  induction l generalizing a with
  | nil => rfl
  | cons b t ih =>
    show qmax (max (a - m) (b - m)) (t.map (fun x => x - m)) = qmax (max a b) t - m
    rw [max_sub_sub_right]
    exact ih (max a b)

theorem observed_map_fsub (m : ℚ) (col : Col) :
    observed (col.map (fun v => fsub v (some m))) = (observed col).map (fun x => x - m) := by
  induction col with
  | nil => rfl
  | cons c t ih =>
    cases c with
    | none => simpa [observed, List.filterMap_cons, fsub] using ih
    | some x => simpa [observed, List.filterMap_cons, fsub] using ih

theorem mem_observed (x : ℚ) (col : Col) (h : some x ∈ col) : x ∈ observed col :=
  List.mem_filterMap.mpr ⟨some x, h, rfl⟩

theorem nanmin_le (col : Col) (mn x : ℚ) (hmn : nanmin col = some mn)
    (hx : x ∈ observed col) : mn ≤ x := by
  cases ho : observed col with
  | nil => simp [nanmin, ho] at hmn
  | cons y ys =>
    simp only [nanmin, ho] at hmn
    obtain rfl := Option.some.inj hmn
    rw [ho] at hx
    rcases List.mem_cons.mp hx with rfl | hx2
    · exact qmin_le_self x ys
    · exact qmin_le_of_mem y x ys hx2

theorem le_nanmax (col : Col) (mx x : ℚ) (hmx : nanmax col = some mx)
    (hx : x ∈ observed col) : x ≤ mx := by
  cases ho : observed col with
  | nil => simp [nanmax, ho] at hmx
  | cons y ys =>
    simp only [nanmax, ho] at hmx
    obtain rfl := Option.some.inj hmx
    rw [ho] at hx
    rcases List.mem_cons.mp hx with rfl | hx2
    · exact le_qmax_self x ys
    · exact le_qmax_of_mem y x ys hx2

theorem nanmin_le_nanmax (col : Col) (mn mx : ℚ) (h1 : nanmin col = some mn)
    (h2 : nanmax col = some mx) : mn ≤ mx := by
  cases ho : observed col with
  | nil => simp [nanmin, ho] at h1
  | cons y ys =>
    have hy : y ∈ observed col := by rw [ho]; exact List.mem_cons_self y ys
    exact le_trans (nanmin_le col mn y h1 hy) (le_nanmax col mx y h2 hy)

theorem nanmax_shift (col : Col) (m mx : ℚ) (h : nanmax col = some mx) :
    nanmax (col.map (fun v => fsub v (some m))) = some (mx - m) := by
  cases ho : observed col with
  | nil => simp [nanmax, ho] at h
  | cons y ys =>
    simp only [nanmax, ho] at h
    obtain rfl := Option.some.inj h
    simp only [nanmax, observed_map_fsub, ho, List.map_cons]
    rw [qmax_map_sub]

theorem eps_pos : 0 < eps := by norm_num [eps]

theorem fitColumn_min (col : Col) : (fitColumn col).2.1 = nanmin col := rfl

theorem fitColumn_max (col : Col) (mn mx : ℚ) (h1 : nanmin col = some mn)
    (h2 : nanmax col = some mx) : (fitColumn col).2.2 = some (mx - mn) := by
  show nanmax (col.map (fun v => fsub v (nanmin col))) = some (mx - mn)
  rw [h1]
  exact nanmax_shift col mn mx h2

theorem fitColumn_fst (col : Col) (mn mx : ℚ) (h1 : nanmin col = some mn)
    (h2 : nanmax col = some mx) :
    (fitColumn col).1 = col.map (Option.map (fun x => (x - mn) / (mx - mn + eps))) := by
  have hle := nanmin_le_nanmax col mn mx h1 h2
  have hD : mx - mn + eps ≠ 0 := by
    have := eps_pos
    intro hc
    linarith
  show (col.map (fun v => fsub v (nanmin col))).map
      (fun v => fdiv v (fadd (nanmax (col.map (fun v => fsub v (nanmin col)))) epsF))
    = col.map (Option.map (fun x => (x - mn) / (mx - mn + eps)))
  rw [h1, nanmax_shift col mn mx h2, List.map_map]
  have hfun : ((fun v => fdiv v (fadd (some (mx - mn)) epsF)) ∘ (fun v => fsub v (some mn)))
      = Option.map (fun x => (x - mn) / (mx - mn + eps)) := by
    funext v
    cases v with
    | none => rfl
    | some x => simp [Function.comp, fsub, fdiv, fadd, epsF, hD]
  rw [hfun]

theorem getD_map_none (f : F → F) (hf : f none = none) (col : Col) (j : ℕ) :
    (col.map f).getD j none = f (col.getD j none) := by
  rw [List.getD_eq_getElem?_getD, List.getD_eq_getElem?_getD, List.getElem?_map]
  cases hj : col[j]? with
  | none => simpa using hf.symm
  | some a => rfl

theorem getD_zipWith {α β γ : Type} (f : α → β → γ) (l1 : List α) (l2 : List β)
    (i : ℕ) (d1 : α) (d2 : β) (d : γ) (h1 : i < l1.length) (h2 : i < l2.length) :
    (List.zipWith f l1 l2).getD i d = f (l1.getD i d1) (l2.getD i d2) := by
  have hz : i < (List.zipWith f l1 l2).length := by
    rw [List.length_zipWith]
    omega
  rw [List.getD_eq_getElem _ _ hz, List.getD_eq_getElem _ _ h1, List.getD_eq_getElem _ _ h2]
  exact List.getElem_zipWith

theorem getD_map_of_lt {α β : Type} (f : α → β) (l : List α) (i : ℕ) (d1 : α) (d : β)
    (h : i < l.length) : (l.map f).getD i d = f (l.getD i d1) := by
  have hm : i < (l.map f).length := by simpa using h
  rw [List.getD_eq_getElem _ _ hm, List.getD_eq_getElem _ _ h, List.getElem_map]

/-! Claim theorems. -/

/-- C1: the claim states that apply-mode `normalization` transforms
each column `i` with the caller-supplied per-column `min_val[i]` and
`max_val[i]` and passes the parameters through.  The source omits the
per-column indexing in this branch and combines each column with the
whole parameter vectors under broadcasting, which raises a broadcast
error already on a plain 3-row, 2-column dataset with the fitted-shape
length-2 parameter vectors; the evaluation exhibits the raised error
(`none`), where the claimed behaviour would return the transformed
dataset. -/
theorem C1_apply_mode_broadcast_error :
    normalization [[some 1, some 3, some 5], [some 2, some 4, some 6]]
      (some ⟨[some 0, some 0], [some 1, some 1]⟩) = none := by
  decide

/-- C2 counterexample: fit-mode `normalization` on the single column
`[1, 3]` returns `max_val = [2]`, the `nanmax` of the min-shifted
column, while the claim requires `max_val[0] = nanmax(column) = 3`. -/
theorem C2_max_val_counterexample :
    (normalizationFit [[some 1, some 3]]).2.max_val = [some 2]
      ∧ nanmax [some 1, some 3] = some 3 ∧ ((2 : ℚ) ≠ (3 : ℚ)) := by
  refine ⟨?_, ?_, by norm_num⟩
  · simp [normalizationFit, fitColumn, nanmin, nanmax, observed, qmin, qmax, fsub, fadd,
      fdiv, epsF, eps, List.filterMap_cons, min_def, max_def]
    norm_num
  · simp [nanmax, observed, qmax, List.filterMap_cons, max_def]

/-- C2 as amended: fit mode returns `min_val[i] = nanmin(column i)`
and `max_val[i] = nanmax(column i) - nanmin(column i)` (the `nanmax`
of the shifted column), and transforms every entry of column `i` to
`(value - nanmin) / (nanmax - nanmin + 1e-6)` (not-a-number entries
propagating), which is the transform the claim states. -/
theorem C2_fit_mode_amended (data : Mat) (i : ℕ) (mn mx : ℚ)
    (hi : i < data.length)
    (hmn : nanmin (data.getD i []) = some mn)
    (hmx : nanmax (data.getD i []) = some mx) :
    (normalizationFit data).2.min_val.getD i none = some mn
      ∧ (normalizationFit data).2.max_val.getD i none = some (mx - mn)
      ∧ (normalizationFit data).1.getD i []
          = (data.getD i []).map (Option.map (fun x => (x - mn) / (mx - mn + eps))) := by
  refine ⟨?_, ?_, ?_⟩
  · rw [show (normalizationFit data).2.min_val = data.map (fun c => (fitColumn c).2.1) from rfl,
      getD_map_of_lt _ data i [] none hi, fitColumn_min, hmn]
  · rw [show (normalizationFit data).2.max_val = data.map (fun c => (fitColumn c).2.2) from rfl,
      getD_map_of_lt _ data i [] none hi,
      fitColumn_max (data.getD i []) mn mx hmn hmx]
  · rw [show (normalizationFit data).1 = data.map (fun c => (fitColumn c).1) from rfl,
      getD_map_of_lt _ data i [] [] hi,
      fitColumn_fst (data.getD i []) mn mx hmn hmx]

/-- Witness for the amended C2 at the dataset with the single column
`[1, 3]`. -/
theorem C2_fit_mode_amended_witness :
    (normalizationFit [[some 1, some 3]]).2.min_val.getD 0 none = some 1
      ∧ (normalizationFit [[some 1, some 3]]).2.max_val.getD 0 none = some ((3 : ℚ) - 1)
      ∧ (normalizationFit [[some 1, some 3]]).1.getD 0 []
          = ([some 1, some 3] : Col).map (Option.map (fun x => (x - 1) / (3 - 1 + eps))) :=
  C2_fit_mode_amended [[some 1, some 3]] 0 1 3 (by decide) (by decide) (by decide)

/-- C4: the claim states that `rmse_loss` scores the imputation as
`sqrt(sum(((1-data_m)*(ori_norm-imputed_norm))^2)/sum(1-data_m))`
with the imputed data normalized by the parameters fitted on the
original data, so for identical inputs and at least one masked cell
the score is 0.  Because apply-mode `normalization` drops the
per-column indexing, the score is a strictly positive number already
on the square 2-by-2 dataset below with `ori_data = imputed_data`
(the squared score evaluates to a nonzero rational), and on a 3-row,
2-column dataset the call raises a broadcast error (`none`). -/
theorem C4_rmse_loss_nonzero :
    rmse_loss_sq [[some 0, some 1], [some 10, some 20]]
        [[some 0, some 1], [some 10, some 20]] [[1, 0], [1, 1]]
      = some (some (((19000010000000 : ℚ) / 10000011000001) ^ 2))
      ∧ (((19000010000000 : ℚ) / 10000011000001) ^ 2 ≠ 0)
      ∧ rmse_loss_sq [[some 0, some 1, some 2], [some 10, some 20, some 30]]
          [[some 0, some 1, some 2], [some 10, some 20, some 30]]
          [[1, 0, 1], [1, 1, 1]] = none := by
  refine ⟨?_, by positivity, by decide⟩
  simp [rmse_loss_sq, normalizationFit, normalizationApply, fitColumn, nanmin, nanmax, observed,
    qmin, qmax, fsub, fadd, fdiv, fmul, epsF, eps, List.filterMap_cons, min_def, max_def,
    bcast, maskMul, matSum, List.mapM, List.mapM.loop]
  norm_num

/-- C5 counterexample: `sample_batch_index(total=2, batch_size=5)`
does not fail; the numpy slice `total_idx[:batch_size]` silently
truncates, so the call returns the whole length-2 permutation (here
evaluated with the concrete generator `testLib`). -/
theorem C5_no_error_counterexample :
    (sample_batch_index testLib 2 5 0).1 = [0, 1] := by
  decide

/-- C5 as amended: for `batch_size >= total`, `sample_batch_index`
returns without error the entire permutation of `[0, total)`, that is
the first `min(batch_size, total) = total` entries. -/
theorem C5_truncation_amended (lib : RandLib) (total batch_size s : ℕ)
    (hlen : (lib.permutation (lib.seedState 7) total).1.length = total)
    (h : total ≤ batch_size) :
    (sample_batch_index lib total batch_size s).1
        = (lib.permutation (lib.seedState 7) total).1
      ∧ (sample_batch_index lib total batch_size s).1.length = total := by
  constructor
  · show (lib.permutation (lib.seedState 7) total).1.take batch_size = _
    exact List.take_of_length_le (by omega)
  · show ((lib.permutation (lib.seedState 7) total).1.take batch_size).length = total
    rw [List.length_take, hlen]
    omega

/-- Witness for the amended C5: `total = 2`, `batch_size = 5` with the
concrete generator `testLib`. -/
theorem C5_truncation_amended_witness :
    (sample_batch_index testLib 2 5 0).1 = (testLib.permutation (testLib.seedState 7) 2).1
      ∧ (sample_batch_index testLib 2 5 0).1.length = 2 :=
  C5_truncation_amended testLib 2 5 0 (by decide) (by decide)

/-- C6: every sampler begins by reseeding the shared generator to the
fixed constant 7, so its output is a function of its arguments alone:
two calls with identical arguments agree whatever the incoming
generator states `s1` and `s2` are (any order, any draws in between). -/
theorem C6_sampler_determinism (lib : RandLib) (p low high : ℚ)
    (rows cols total batch_size s1 s2 : ℕ) :
    (binary_sampler lib p rows cols s1).1 = (binary_sampler lib p rows cols s2).1
      ∧ (uniform_sampler lib low high rows cols s1).1
          = (uniform_sampler lib low high rows cols s2).1
      ∧ (sample_batch_index lib total batch_size s1).1
          = (sample_batch_index lib total batch_size s2).1 :=
  ⟨rfl, rfl, rfl⟩

theorem nanmin_isSome (col : Col) (hnn : ∀ c ∈ col, c ≠ none) (hne : col ≠ []) :
    ∃ mn, nanmin col = some mn := by
  cases col with
  | nil => exact absurd rfl hne
  | cons c t =>
    cases c with
    | none => exact absurd rfl (hnn none (List.mem_cons_self _ _))
    | some x => exact ⟨qmin x (observed t), rfl⟩

theorem nanmax_isSome (col : Col) (hnn : ∀ c ∈ col, c ≠ none) (hne : col ≠ []) :
    ∃ mx, nanmax col = some mx := by
  cases col with
  | nil => exact absurd rfl hne
  | cons c t =>
    cases c with
    | none => exact absurd rfl (hnn none (List.mem_cons_self _ _))
    | some x => exact ⟨qmax x (observed t), rfl⟩

theorem fit_renorm_column (col : Col) (hnn : ∀ c ∈ col, c ≠ none) (hne : col ≠ []) :
    ((fitColumn col).1).map
        (fun v => fadd (fmul v (fadd (fitColumn col).2.2 epsF)) (fitColumn col).2.1)
      = col := by
  obtain ⟨mn, hmn⟩ := nanmin_isSome col hnn hne
  obtain ⟨mx, hmx⟩ := nanmax_isSome col hnn hne
  have hD : (mx - mn + eps) ≠ 0 := by
    have h1 := nanmin_le_nanmax col mn mx hmn hmx
    have h2 := eps_pos
    intro hc
    linarith
  rw [fitColumn_fst col mn mx hmn hmx, fitColumn_min, fitColumn_max col mn mx hmn hmx, hmn,
    List.map_map]
  have hcell : ∀ c ∈ col,
      ((fun v => fadd (fmul v (fadd (some (mx - mn)) epsF)) (some mn))
        ∘ Option.map (fun x => (x - mn) / (mx - mn + eps))) c = c := by
    intro c hc
    cases c with
    | none => exact absurd rfl (hnn none hc)
    | some x =>
      simp [Function.comp, fadd, fmul, epsF]
      rw [div_mul_cancel₀ _ hD]
      ring_nf
  conv_rhs => rw [show col = col.map id from (List.map_id col).symm]
  exact List.map_congr_left hcell

/-- C3: renormalizing the fit-normalized data with the returned
parameters reproduces the original dataset exactly in exact
arithmetic. -/
theorem C3_round_trip (data : Mat)
    (hnn : ∀ col ∈ data, ∀ c ∈ col, c ≠ none)
    (hne : ∀ col ∈ data, col ≠ []) :
    renormalization (normalizationFit data).1 (normalizationFit data).2 = data := by
  show List.zipWith _ (data.map fun c => (fitColumn c).1)
      ((data.map fun c => (fitColumn c).2.1).zip (data.map fun c => (fitColumn c).2.2)) = data
  rw [List.zip_map' _ _ data, List.zipWith_map, List.zipWith_same]
  have hcol : ∀ col ∈ data,
      ((fitColumn col).1).map
          (fun v => fadd (fmul v (fadd (fitColumn col).2.2 epsF)) (fitColumn col).2.1)
        = col := fun col hc => fit_renorm_column col (hnn col hc) (hne col hc)
  conv_rhs => rw [show data = data.map id from (List.map_id data).symm]
  exact List.map_congr_left hcol

theorem C3_round_trip_witness :
    renormalization (normalizationFit [[some 1, some 3], [some 2, some 2]]).1
        (normalizationFit [[some 1, some 3], [some 2, some 2]]).2
      = [[some 1, some 3], [some 2, some 2]] :=
  C3_round_trip [[some 1, some 3], [some 2, some 2]] (by decide) (by decide)

/-- C7: `rounding` rounds a whole imputed column entrywise exactly
when the original column has fewer than 20 distinct observed values,
and leaves it unchanged otherwise; and `npRound` always produces an
integer at distance at most 1/2 from its argument (nearest integer,
ties to even). -/
theorem C7_rounding_threshold (imputed_data data_x : Mat) (i : ℕ)
    (h1 : i < imputed_data.length) (h2 : i < data_x.length) :
    ((rounding imputed_data data_x).getD i []
        = if ((observed (data_x.getD i [])).dedup).length < 20
          then (imputed_data.getD i []).map (Option.map npRound)
          else imputed_data.getD i [])
      ∧ ∀ x : ℚ, ∃ k : ℤ, npRound x = (k : ℚ) ∧ |x - (k : ℚ)| ≤ 1 / 2 := by
  constructor
  · show (List.zipWith _ imputed_data data_x).getD i [] = _
    rw [getD_zipWith _ imputed_data data_x i [] [] [] h1 h2]
  · intro x
    have hfl : ((Int.floor x : ℤ) : ℚ) ≤ x := Int.floor_le x
    have hfu : x < (Int.floor x : ℤ) + 1 := Int.lt_floor_add_one x
    by_cases hlt : x - ((Int.floor x : ℤ) : ℚ) < 1 / 2
    · refine ⟨Int.floor x, ?_, ?_⟩
      · simp only [npRound]
        rw [if_pos hlt]
      · rw [abs_le]
        constructor <;> linarith
    · by_cases hgt : 1 / 2 < x - ((Int.floor x : ℤ) : ℚ)
      · refine ⟨Int.floor x + 1, ?_, ?_⟩
        · simp only [npRound]
          rw [if_neg hlt, if_pos hgt]
        · rw [abs_le]
          push_cast
          constructor <;> linarith
      · by_cases hev : (Int.floor x) % 2 = 0
        · refine ⟨Int.floor x, ?_, ?_⟩
          · simp only [npRound]
            rw [if_neg hlt, if_neg hgt, if_pos hev]
          · rw [abs_le]
            constructor <;> linarith
        · refine ⟨Int.floor x + 1, ?_, ?_⟩
          · simp only [npRound]
            rw [if_neg hlt, if_neg hgt, if_neg hev]
          · rw [abs_le]
            push_cast
            constructor <;> linarith

/-- Witness for C7: the original column has observed values 0, 1, 2
(three distinct values, below 20), so the imputed column
`[0.2, 1.7, 2.4]` is rounded to `[0, 2, 2]`. -/
theorem C7_rounding_witness :
    (rounding [[some (1/5), some (17/10), some (12/5)]] [[some 0, some 1, some 2]]).getD 0 []
      = [some 0, some 2, some 2] := by
  have h := (C7_rounding_threshold [[some (1/5), some (17/10), some (12/5)]]
    [[some 0, some 1, some 2]] 0 (by decide) (by decide)).1
  rw [h, if_pos (by decide)]
  norm_num [npRound]

/-- C10: a column of `data_x` that is entirely not-a-number has no
observed values, hence zero distinct values, which is below the
threshold of 20, so `rounding` rounds the whole corresponding imputed
column. -/
theorem C10_all_nan_column_rounded (imputed_data data_x : Mat) (i : ℕ)
    (h1 : i < imputed_data.length) (h2 : i < data_x.length)
    (hnan : ∀ c ∈ data_x.getD i [], c = none) :
    (rounding imputed_data data_x).getD i []
      = (imputed_data.getD i []).map (Option.map npRound) := by
  have hobs : observed (data_x.getD i []) = [] :=
    List.filterMap_eq_nil_iff.mpr hnan
  show (List.zipWith _ imputed_data data_x).getD i [] = _
  rw [getD_zipWith _ imputed_data data_x i [] [] [] h1 h2, hobs]
  simp

/-- Witness for C10: a single all-missing original column forces the
imputed value 3/2 to be rounded (to 2, half to even). -/
theorem C10_all_nan_witness :
    (rounding [[some (3/2)]] [[none]]).getD 0 []
      = ([some (3/2)] : Col).map (Option.map npRound) :=
  C10_all_nan_column_rounded [[some (3/2)]] [[none]] 0 (by decide) (by decide) (by decide)

/-- C9: fit-mode `normalization` sends every not-a-number cell to
not-a-number and every finite cell of a column into `[0, 1]` (in fit
mode every finite entry lies between the fitted extrema of its own
column, so the guarantee is unconditional). -/
theorem C9_fit_range_and_nan (data : Mat) (i j : ℕ) :
    ((data.getD i []).getD j none = none
        → ((normalizationFit data).1.getD i []).getD j none = none)
      ∧ ∀ x : ℚ, (data.getD i []).getD j none = some x
          → ∃ y : ℚ, ((normalizationFit data).1.getD i []).getD j none = some y
              ∧ 0 ≤ y ∧ y ≤ 1 := by
  by_cases hi : i < data.length
  · have hres : (normalizationFit data).1.getD i [] = (fitColumn (data.getD i [])).1 := by
      show (data.map (fun c => (fitColumn c).1)).getD i [] = _
      exact getD_map_of_lt _ data i [] [] hi
    constructor
    · intro hcell
      rw [hres]
      show ((data.getD i []).map (fun v => fsub v (nanmin (data.getD i []))) |>.map
        (fun v => fdiv v (fadd (nanmax ((data.getD i []).map
          (fun v => fsub v (nanmin (data.getD i []))))) epsF))).getD j none = none
      rw [List.map_map, getD_map_none _ rfl, hcell]
      rfl
    · intro x hx
      have hjlt : j < (data.getD i []).length := by
        by_contra hge
        rw [List.getD_eq_default _ _ (le_of_not_lt hge)] at hx
        cases hx
      have hmem : some x ∈ data.getD i [] := by
        rw [List.getD_eq_getElem _ _ hjlt] at hx
        rw [← hx]
        exact List.getElem_mem hjlt
      have hobs : x ∈ observed (data.getD i []) := mem_observed x _ hmem
      obtain ⟨y0, ys, ho⟩ : ∃ y0 ys, observed (data.getD i []) = y0 :: ys := by
        cases ho : observed (data.getD i []) with
        | nil => rw [ho] at hobs; cases hobs
        | cons y0 ys => exact ⟨y0, ys, rfl⟩
      have hmn : nanmin (data.getD i []) = some (qmin y0 ys) := by
        simp only [nanmin, ho]
      have hmx : nanmax (data.getD i []) = some (qmax y0 ys) := by
        simp only [nanmax, ho]
      have hxlo : qmin y0 ys ≤ x := nanmin_le _ _ _ hmn hobs
      have hxhi : x ≤ qmax y0 ys := le_nanmax _ _ _ hmx hobs
      have hD : (0 : ℚ) < qmax y0 ys - qmin y0 ys + eps := by
        have := eps_pos
        linarith
      refine ⟨(x - qmin y0 ys) / (qmax y0 ys - qmin y0 ys + eps), ?_, ?_, ?_⟩
      · rw [hres, fitColumn_fst _ _ _ hmn hmx, getD_map_none _ rfl, hx]
        rfl
      · exact div_nonneg (by linarith) (le_of_lt hD)
      · rw [div_le_one hD]
        have := eps_pos
        linarith
  · have hres : (normalizationFit data).1.getD i [] = [] := by
      apply List.getD_eq_default
      simpa [normalizationFit] using le_of_not_lt hi
    have hcol : data.getD i [] = [] := List.getD_eq_default _ _ (le_of_not_lt hi)
    constructor
    · intro _
      rw [hres]
      rfl
    · intro x hx
      rw [hcol] at hx
      cases hx

/-- Witness for C9 on the single column `[0, NaN, 2]`: the
not-a-number cell stays not-a-number, and the finite cell 2 lands in
`[0, 1]`. -/
theorem C9_fit_range_witness :
    (((normalizationFit [[some 0, none, some 2]]).1.getD 0 []).getD 1 none = none)
      ∧ ∃ y : ℚ, ((normalizationFit [[some 0, none, some 2]]).1.getD 0 []).getD 2 none = some y
          ∧ 0 ≤ y ∧ y ≤ 1 :=
  ⟨(C9_fit_range_and_nan [[some 0, none, some 2]] 0 1).1 (by decide),
   (C9_fit_range_and_nan [[some 0, none, some 2]] 0 2).2 2 (by decide)⟩

/-- C8: `get_data` returns the input `X` itself untouched as its
first component, and a corrupted copy that differs from `X` exactly
at the cells where the drawn keep-mask is 0 — those cells hold the
missing-value sentinel (`none`, standing for the literal `".|."`),
every other cell holds the original value. -/
theorem C8_get_data_frame (lib : RandLib) (X : List (List ℚ)) (miss_rate : ℚ) (s : ℕ) (j i : ℕ)
    (hu1 : (lib.uniform (lib.seedState 7) 0 1 (X.headD []).length X.length).1.length = X.length)
    (hu2 : ∀ c ∈ (lib.uniform (lib.seedState 7) 0 1 (X.headD []).length X.length).1,
        c.length = (X.headD []).length)
    (hrect : ∀ col ∈ X, col.length = (X.headD []).length)
    (hj : j < X.length) (hi : i < (X.headD []).length) :
    (get_data lib X miss_rate s).1.1 = X
      ∧ ((((get_data lib X miss_rate s).1.2.getD j []).getD i none = none)
          ↔ ((binary_sampler lib (1 - miss_rate) (X.headD []).length X.length s).1.getD j
              []).getD i 1 = 0)
      ∧ ((((get_data lib X miss_rate s).1.2.getD j []).getD i none
            = some ((X.getD j []).getD i 0))
          ↔ ¬ ((binary_sampler lib (1 - miss_rate) (X.headD []).length X.length s).1.getD j
              []).getD i 1 = 0) := by
  have hmaskLen : (binary_sampler lib (1 - miss_rate) (X.headD []).length X.length s).1.length
      = X.length := by
    show ((lib.uniform (lib.seedState 7) 0 1 (X.headD []).length X.length).1.map
      (List.map fun v => if v < 1 - miss_rate then 1 else 0)).length = X.length
    rw [List.length_map]
    exact hu1
  have hjl : j < (lib.uniform (lib.seedState 7) 0 1 (X.headD []).length X.length).1.length := by
    rw [hu1]
    exact hj
  have humem : (lib.uniform (lib.seedState 7) 0 1 (X.headD []).length X.length).1.getD j []
      ∈ (lib.uniform (lib.seedState 7) 0 1 (X.headD []).length X.length).1 := by
    rw [List.getD_eq_getElem _ _ hjl]
    exact List.getElem_mem hjl
  have hmaskCol : (binary_sampler lib (1 - miss_rate) (X.headD []).length X.length s).1.getD j []
      = ((lib.uniform (lib.seedState 7) 0 1 (X.headD []).length X.length).1.getD j []).map
          (fun v => if v < 1 - miss_rate then 1 else 0) := by
    show ((lib.uniform (lib.seedState 7) 0 1 (X.headD []).length X.length).1.map
      (List.map fun v => if v < 1 - miss_rate then 1 else 0)).getD j [] = _
    exact getD_map_of_lt _ _ j [] [] hjl
  have hmaskColLen :
      ((binary_sampler lib (1 - miss_rate) (X.headD []).length X.length s).1.getD j []).length
        = (X.headD []).length := by
    rw [hmaskCol, List.length_map]
    exact hu2 _ humem
  have hXmem : X.getD j [] ∈ X := by
    rw [List.getD_eq_getElem _ _ hj]
    exact List.getElem_mem hj
  have hXcolLen : (X.getD j []).length = (X.headD []).length := hrect _ hXmem
  have hcell : ((get_data lib X miss_rate s).1.2.getD j []).getD i none
      = (if ((binary_sampler lib (1 - miss_rate) (X.headD []).length X.length s).1.getD j
            []).getD i 1 = 0
         then (none : F) else some ((X.getD j []).getD i 0)) := by
    show ((List.zipWith (fun colX colM => List.zipWith
        (fun x m => if m = 0 then (none : F) else some x) colX colM) X
        (binary_sampler lib (1 - miss_rate) (X.headD []).length X.length s).1).getD j
          []).getD i none = _
    rw [getD_zipWith _ X _ j [] [] [] hj (by rw [hmaskLen]; exact hj)]
    rw [getD_zipWith _ _ _ i 0 1 none (by rw [hXcolLen]; exact hi)
      (by rw [hmaskColLen]; exact hi)]
  refine ⟨rfl, ?_, ?_⟩
  · rw [hcell]
    by_cases hm : ((binary_sampler lib (1 - miss_rate) (X.headD []).length X.length s).1.getD j
        []).getD i 1 = 0
    · simp [hm]
    · simp [hm]
  · rw [hcell]
    by_cases hm : ((binary_sampler lib (1 - miss_rate) (X.headD []).length X.length s).1.getD j
        []).getD i 1 = 0
    · simp [hm]
    · simp [hm]

/-- Witness for C8 with the concrete generator `testLib` on a 2-by-2
dataset: the untouched original comes back, and the cell at row 1 of
column 0, whose mask entry is 0, is the sentinel. -/
theorem C8_get_data_witness :
    (get_data testLib [[1, 2], [3, 4]] (1/2) 0).1.1 = [[1, 2], [3, 4]]
      ∧ ((((get_data testLib [[1, 2], [3, 4]] (1/2) 0).1.2.getD 0 []).getD 1 none = none)
          ↔ ((binary_sampler testLib (1 - 1/2) 2 2 0).1.getD 0 []).getD 1 1 = 0)
      ∧ ((((get_data testLib [[1, 2], [3, 4]] (1/2) 0).1.2.getD 0 []).getD 1 none
            = some (([[1, 2], [3, 4]].getD 0 []).getD 1 0))
          ↔ ¬ ((binary_sampler testLib (1 - 1/2) 2 2 0).1.getD 0 []).getD 1 1 = 0) :=
  C8_get_data_frame testLib [[1, 2], [3, 4]] (1/2) 0 0 1 (by decide) (by decide) (by decide)
    (by decide) (by decide)
